import Mathlib

/-!
Verification of the natural-language specification of
`src/inventorygenerator.py` against a shallow embedding of its code.

The module has two pieces of logic:

* the row-processing loop of `fetch_hosts_from_db` (lines 84..122), which
  normalizes the tags payload of each fetched row and extracts the first
  tag value starting with "TEAMNAME-" as `app_region`;
* `generate_inventory` (lines 125..206), which classifies each host record
  by substring checks on `app_region` and the hostname and assembles the
  Ansible inventory dictionary.

Python-level behaviour is modelled explicitly: `a in b` on strings is
substring containment; `in` applied to `None` raises `TypeError`; reading
the never-assigned local `env_name` raises `NameError`; iterating over the
string "UNKNOWN" yields its characters as one-character strings; Python
dictionaries are insertion-ordered association lists in which overwriting
a key keeps its position and new keys are appended at the end.  Raised
exceptions are modelled with `Except`: an `Except.error` aborts the run,
exactly as an uncaught Python exception would.
-/

/-- Python string membership `needle in hay` restricted to a check that
`pat` occurs at the start of `hay`, on character lists. -/
def charListStarts : List Char → List Char → Bool
  | [], _ => true
  | _ :: _, [] => false
  | p :: ps, h :: hs => p == h && charListStarts ps hs

/-- `pat` occurs as a contiguous run somewhere in the character list. -/
def charListHas (pat : List Char) : List Char → Bool
  | [] => charListStarts pat []
  | h :: hs => charListStarts pat (h :: hs) || charListHas pat hs

/-- Python `needle in hay` for strings: substring containment. -/
def pyIn (needle hay : String) : Bool :=
  charListHas needle.toList hay.toList

/-- Python `s.startswith(pre)`. -/
def pyStarts (s pre : String) : Bool :=
  charListStarts pre.toList s.toList

/-- The uncaught Python exceptions the embedded code can raise. -/
inductive PyError where
  | typeError
  | nameError
  | keyError
  | attributeError
deriving DecidableEq, Repr

/-- Python `needle in hay` where `hay` may be `None` (`host.get` result):
`in` applied to `None` raises `TypeError` (line 152 with a null region). -/
def pyInNone (needle : String) : Option String → Except PyError Bool
  | none => Except.error PyError.typeError
  | some s => Except.ok (pyIn needle s)

/-- Lines 151..154: the lazily evaluated generator
`any(test_env in app_region or "TEST" in hostname for test_env in [...])`.
Each element is `(test_env in app_region) or ("TEST" in hostname)`; the
left operand is evaluated first, so a `None` region raises `TypeError`
before the hostname check is reached, and `any` stops at the first
truthy element. -/
def pyAnyOrTest (app_region : Option String) (hostname : String) :
    List String → Except PyError Bool
  | [] => Except.ok false
  | t :: ts => do
    let b ← pyInNone t app_region
    if b || pyIn "TEST" hostname then Except.ok true
    else pyAnyOrTest app_region hostname ts

/-- The managed-environment predicate of lines 151..154, with the token
list `["DEV", "TEST1", "TEST2"]` of the source. -/
def managedCheck (app_region : Option String) (hostname : String) :
    Except PyError Bool :=
  pyAnyOrTest app_region hostname ["DEV", "TEST1", "TEST2"]

/-- One host record as produced by `fetch_hosts_from_db` (lines 113..120):
keys `Name`, `ObjectId`, `ObjectName`, `app_region`. -/
structure HostRecord where
  name : String
  objectId : String
  objectName : String
  app_region : Option String
deriving DecidableEq, Repr

/-- The per-host variables written at lines 199..204. -/
structure HostVars where
  job_name : String
  env_name : String
  server_description : String
  connected_hosts : List String
deriving DecidableEq, Repr

/-- A top-level value of the inventory dictionary: either the
`{"hostvars": ...}` record stored under `"_meta"`, or a
`{"hosts": [...]}` group record. -/
inductive InvEntry where
  | meta (hostvars : List (String × HostVars))
  | grp (hosts : List String)
deriving DecidableEq, Repr

/-- The inventory dictionary: an insertion-ordered association list, the
model of a Python `dict`. -/
abbrev Inventory := List (String × InvEntry)

/-- Python `d[k]` lookup on the association-list model (first, and by
construction only, binding of the key). -/
def dictLookup {α : Type} : List (String × α) → String → Option α
  | [], _ => none
  | p :: ps, k => if p.1 = k then some p.2 else dictLookup ps k

/-- Python `k in d`. -/
def dictHasKey {α : Type} (d : List (String × α)) (k : String) : Bool :=
  (dictLookup d k).isSome

/-- Python `d[k] = v`: overwriting an existing key keeps its position,
a new key is appended at the end. -/
def dictSet {α : Type} (d : List (String × α)) (k : String) (v : α) :
    List (String × α) :=
  if dictHasKey d k then
    d.map (fun p => if p.1 = k then (k, v) else p)
  else
    d ++ [(k, v)]

/-- The value of the local `groups` at line 193: the managed branch builds
a list of group names, while the fallback branch at line 189 assigns the
plain string `"UNKNOWN"`. -/
inductive PyGroups where
  | list (gs : List String)
  | str (s : String)
deriving DecidableEq, Repr

/-- What `for group in groups:` (line 193) iterates over: a list yields
its elements, a string yields its characters as one-character strings. -/
def PyGroups.toIter : PyGroups → List String
  | PyGroups.list gs => gs
  | PyGroups.str s => s.toList.map (fun c => String.singleton c)

/-- The four locals computed by the classification block, lines 151..191. -/
structure Classified where
  groups : PyGroups
  job_name : String
  connected_hosts : List String
  env_name : Option String
deriving DecidableEq, Repr

/-- The role-substring block that the source repeats verbatim inside each
environment branch (lines 165..168, 173..176 and 181..184): WEB groups if
the hostname contains "HTTP" or "WEB", else APP groups if it contains
"APP" or "TOMCAT", else nothing. -/
def roleGroups (hostname : String) : List String :=
  if pyIn "HTTP" hostname || pyIn "WEB" hostname then
    ["WEB", "WEB_PATCHING"]
  else if pyIn "APP" hostname || pyIn "TOMCAT" hostname then
    ["APP", "TOMCAT_PATCHING"]
  else
    []

/-- Lines 151..191: classification of one host.  `env_prev` is the value
the function-level local `env_name` has when the loop iteration starts
(`none` while it has never been assigned); the branches that do not
assign it leave it unchanged, which is how the stale value of an earlier
iteration can leak into a later host. -/
def classifyHost (env_prev : Option String) (app_region : Option String)
    (hostname : String) : Except PyError Classified :=
  match managedCheck app_region hostname with
  | Except.error e => Except.error e
  | Except.ok cond =>
  if cond then
    if pyIn "DEV" hostname then
      Except.ok
        { groups := PyGroups.list (["DEV"] ++ roleGroups hostname)
          job_name := "generic-prometheus-job-name"
          connected_hosts := []
          env_name := some "DEV_ENVIRONMENT" }
    else if pyIn "TEST1" hostname then
      Except.ok
        { groups := PyGroups.list (["TEST1"] ++ roleGroups hostname)
          job_name := "generic-prometheus-job-name"
          connected_hosts := []
          env_name := some "TEST1_ENVIRONMENT" }
    else if pyIn "TEST2" hostname then
      Except.ok
        { groups := PyGroups.list (["TEST2"] ++ roleGroups hostname)
          job_name := "generic-prometheus-job-name"
          connected_hosts := []
          env_name := some "TEST2_ENVIRONMENT" }
    else
      Except.ok
        { groups := PyGroups.list []
          job_name := "generic-prometheus-job-name"
          connected_hosts := []
          env_name := env_prev }
  else
    Except.ok
      { groups := PyGroups.str "UNKNOWN"
        job_name := "generic-metrics"
        connected_hosts := []
        env_name := env_prev }

/-- Lines 193..196: create the group entry on first use, then
`inventory[group]["hosts"].append(hostname)`.  Indexing `["hosts"]` into
the `"_meta"` record would raise `KeyError`. -/
def addToGroup (inv : Inventory) (g hn : String) : Except PyError Inventory :=
  let inv1 := if dictHasKey inv g then inv else inv ++ [(g, InvEntry.grp [])]
  match dictLookup inv1 g with
  | some (InvEntry.grp hs) => Except.ok (dictSet inv1 g (InvEntry.grp (hs ++ [hn])))
  | _ => Except.error PyError.keyError

/-- Lines 199..204: `inventory["_meta"]["hostvars"][hostname] = {...}`. -/
def setHostvars (inv : Inventory) (hn : String) (v : HostVars) :
    Except PyError Inventory :=
  match dictLookup inv "_meta" with
  | some (InvEntry.meta hv) =>
      Except.ok (dictSet inv "_meta" (InvEntry.meta (dictSet hv hn v)))
  | _ => Except.error PyError.keyError

/-- The mutable state of the loop at line 146: the inventory built so far
and the current binding of the local `env_name` (`none` = still unbound;
reading it then raises `NameError`). -/
structure LoopState where
  inv : Inventory
  env_name : Option String
deriving DecidableEq, Repr

/-- One iteration of the loop at lines 146..204. -/
def processHost (st : LoopState) (host : HostRecord) :
    Except PyError LoopState :=
  match classifyHost st.env_name host.app_region host.objectName with
  | Except.error e => Except.error e
  | Except.ok c =>
  match (PyGroups.toIter c.groups).foldlM
      (fun inv g => addToGroup inv g host.objectName) st.inv with
  | Except.error e => Except.error e
  | Except.ok inv1 =>
  match c.env_name with
  | none => Except.error PyError.nameError
  | some e =>
  match setHostvars inv1 host.objectName
      { job_name := c.job_name
        env_name := e
        server_description := "Server in my org"
        connected_hosts := c.connected_hosts } with
  | Except.error err => Except.error err
  | Except.ok inv2 => Except.ok { inv := inv2, env_name := some e }

/-- Line 143: `inventory = {"_meta": {"hostvars": {}}}`. -/
def initInventory : Inventory := [("_meta", InvEntry.meta [])]

/-- The initial loop state: fresh inventory, `env_name` unbound. -/
def initState : LoopState := { inv := initInventory, env_name := none }

/-- Lines 125..206: `generate_inventory(hosts)`.  An `Except.error` is an
uncaught Python exception escaping the function. -/
def generate_inventory (hosts : List HostRecord) : Except PyError Inventory :=
  (hosts.foldlM processHost initState).map LoopState.inv

/-- The hosts list of group `g`, `[]` when the group is absent (or when
the key holds the `"_meta"` record). -/
def groupHosts (inv : Inventory) (g : String) : List String :=
  match dictLookup inv g with
  | some (InvEntry.grp hs) => hs
  | _ => []

/-- The hostvars entry recorded for hostname `n`. -/
def lookupHV (inv : Inventory) (n : String) : Option HostVars :=
  match dictLookup inv "_meta" with
  | some (InvEntry.meta hv) => dictLookup hv n
  | _ => none

/-! ## The row-processing loop of `fetch_hosts_from_db` (lines 84..122)

The database connection and the SQL query itself are thin I/O declared out
of scope by the specification; the embedded part is the per-row loop that
normalizes the tags payload and extracts `app_region`. -/

/-- One entry of the `"$values"` tag array: the value of its `"tag"` key,
`none` when the key is absent (line 106 then supplies the default ""). -/
structure TagEntry where
  tag : Option String
deriving DecidableEq, Repr

/-- A successfully parsed JSON payload, as far as line 104 inspects it: a
JSON object is represented by its `"$values"` array (`[]` when the key is
absent), anything else is `nondict` and makes `.get` raise
`AttributeError`. -/
inductive PyParsed where
  | dict (values : List TagEntry)
  | nondict
deriving DecidableEq, Repr

/-- The raw tags column of a fetched row (`row[3]`).  A string carries the
outcome of `json.loads` on it (`none` when parsing raises
`JSONDecodeError`); a dict is represented by its `"$values"` array;
`pyOther` stands for any other Python value together with its
truthiness. -/
inductive PyTags where
  | pyNone
  | pyStr (s : String) (parsed : Option PyParsed)
  | pyDict (values : List TagEntry)
  | pyOther (truthy : Bool)
deriving DecidableEq, Repr

/-- Python truthiness of the tags payload, used by line 85.  A dict is
truthy when non-empty; a dict with only keys other than `"$values"` is
collapsed to its (empty) values array here, which changes nothing: both
the truthy and the falsy route hand an empty tag array to line 104. -/
def pyTruthy : PyTags → Bool
  | PyTags.pyNone => false
  | PyTags.pyStr s _ => !(s == "")
  | PyTags.pyDict vs => !vs.isEmpty
  | PyTags.pyOther b => b

/-- One fetched row: the four selected columns. -/
structure Row where
  name : String
  objectId : String
  objectName : String
  tags : PyTags
deriving DecidableEq, Repr

/-- Line 106: `tag.get("tag", "")`. -/
def tagGet (t : TagEntry) : String := t.tag.getD ""

/-- Lines 105..111: the first tag value starting with "TEAMNAME-", else
`None`. -/
def findAppRegion : List TagEntry → Option String
  | [] => none
  | t :: ts =>
      if pyStarts (tagGet t) "TEAMNAME-" then some (tagGet t)
      else findAppRegion ts

/-- Lines 85..104 for one row: `tags_raw = row[3] if row[3] else {}`, the
type dispatch with its two `continue` branches, and
`tags_dict.get("$values", [])`.  `Except.ok none` is a skipped row,
`Except.ok (some arr)` hands the tag array on, `Except.error` is an
uncaught exception. -/
def tagsArrayOf (t : PyTags) : Except PyError (Option (List TagEntry)) :=
  let tags_raw := if pyTruthy t then t else PyTags.pyDict []
  match tags_raw with
  | PyTags.pyStr _ parsed =>
      match parsed with
      | none => Except.ok none
      | some (PyParsed.dict vs) => Except.ok (some vs)
      | some PyParsed.nondict => Except.error PyError.attributeError
  | PyTags.pyDict vs => Except.ok (some vs)
  | _ => Except.ok none

/-- Lines 84..122: the whole row loop, producing `json_like_data`. -/
def processRows : List Row → Except PyError (List HostRecord)
  | [] => Except.ok []
  | r :: rs =>
    match tagsArrayOf r.tags with
    | Except.error e => Except.error e
    | Except.ok none => processRows rs
    | Except.ok (some arr) =>
      match processRows rs with
      | Except.error e => Except.error e
      | Except.ok rest =>
          Except.ok
            ({ name := r.name
               objectId := r.objectId
               objectName := r.objectName
               app_region := findAppRegion arr } :: rest)

/-! ## Concrete runs deciding the crash-related claims -/

/-- Claim C1: the spec requires that a null `appRegion` makes the
membership checks false and routes the host to UNKNOWN without an error.
The code instead evaluates `test_env in app_region` with
`app_region = None` (line 152), which raises `TypeError` before the
hostname is even consulted: the run aborts and no inventory is
produced. -/
theorem c1_null_appRegion_raises :
    generate_inventory [⟨"ds", "1", "FOO", none⟩] =
      Except.error PyError.typeError := rfl

/-- Claim C2: a host that fails the managed-environment predicate is
supposed to land exactly in the group "UNKNOWN".  The fallback branch
assigns the plain string `groups = "UNKNOWN"` (line 189), so the loop at
line 193 iterates over its characters: the inventory gets the
one-character groups "U", "N", "K", "O", "W" (with the hostname appended
three times to "N") and no group "UNKNOWN" at all.  The `jobName` part of
the claim does hold.  The first host only serves to give `env_name` a
value so that the run does not abort with `NameError` first. -/
theorem c2_unknown_branch_iterates_characters :
    ∃ inv,
      generate_inventory
        [⟨"ds", "1", "BOX-DEV", some "TEAMNAME-DEV"⟩,
         ⟨"ds", "2", "FOO", some "TEAMNAME-PROD"⟩] = Except.ok inv ∧
      dictLookup inv "UNKNOWN" = none ∧
      dictLookup inv "U" = some (InvEntry.grp ["FOO"]) ∧
      dictLookup inv "N" = some (InvEntry.grp ["FOO", "FOO", "FOO"]) ∧
      dictLookup inv "K" = some (InvEntry.grp ["FOO"]) ∧
      dictLookup inv "O" = some (InvEntry.grp ["FOO"]) ∧
      dictLookup inv "W" = some (InvEntry.grp ["FOO"]) ∧
      lookupHV inv "FOO" =
        some ⟨"generic-metrics", "DEV_ENVIRONMENT", "Server in my org", []⟩ :=
  ⟨_, rfl, rfl, rfl, rfl, rfl, rfl, rfl, rfl⟩

/-- Claim C3: the spec requires every hostvars entry to carry a defined
`envName`, independent of which hosts came earlier.  In the code the
UNKNOWN branch never assigns `env_name`, so writing the entry at
line 201 raises `NameError` when the host is first in the sequence, and
silently reuses the stale value of an earlier host otherwise: here the
same record "FOO" either aborts the run or inherits "DEV_ENVIRONMENT"
from the unrelated host processed before it. -/
theorem c3_unknown_env_name_unbound_or_stale :
    generate_inventory [⟨"ds", "1", "FOO", some "TEAMNAME-PROD"⟩] =
        Except.error PyError.nameError ∧
      ∃ inv,
        generate_inventory
          [⟨"ds", "1", "BOX-DEV", some "TEAMNAME-DEV"⟩,
           ⟨"ds", "2", "FOO", some "TEAMNAME-PROD"⟩] = Except.ok inv ∧
        lookupHV inv "FOO" =
          some ⟨"generic-metrics", "DEV_ENVIRONMENT", "Server in my org", []⟩ :=
  ⟨rfl, _, rfl, rfl⟩

/-- Claim C6: the end-to-end example.  The single host "APP01-DEV-HTTP"
with region "TEAMNAME-DEV" is classified DEV (region contains "DEV"),
gets the WEB role groups ("HTTP" in the hostname), and its hostvars entry
carries the prometheus job label and "DEV_ENVIRONMENT". -/
theorem c6_end_to_end_example :
    ∃ inv,
      generate_inventory [⟨"ds", "1", "APP01-DEV-HTTP", some "TEAMNAME-DEV"⟩] =
          Except.ok inv ∧
      dictLookup inv "DEV" = some (InvEntry.grp ["APP01-DEV-HTTP"]) ∧
      dictLookup inv "WEB" = some (InvEntry.grp ["APP01-DEV-HTTP"]) ∧
      dictLookup inv "WEB_PATCHING" = some (InvEntry.grp ["APP01-DEV-HTTP"]) ∧
      lookupHV inv "APP01-DEV-HTTP" =
        some ⟨"generic-prometheus-job-name", "DEV_ENVIRONMENT",
              "Server in my org", []⟩ :=
  ⟨_, rfl, rfl, rfl, rfl, rfl⟩

/-- Claim C9, counterexample: the empty string is a tags payload of string
type on which `json.loads` raises, yet the row is not skipped: line 85
replaces every falsy payload (and "" is falsy) with an empty dict before
the type dispatch, so the row survives with `app_region = None` instead of
being absent from the output. -/
theorem c9_empty_string_payload_kept :
    processRows [⟨"ds", "1", "HOST1", PyTags.pyStr "" none⟩] =
      Except.ok [⟨"ds", "1", "HOST1", none⟩] := rfl

/-- Claim C10, counterexample: a managed host whose hostname matches no
environment token leaves `env_name` untouched; when no earlier iteration
assigned it, the hostvars write raises `NameError` and no entry (and no
inventory) is produced, against the claim that an entry is still
written. -/
theorem c10_counterexample_env_unbound :
    generate_inventory [⟨"ds", "1", "APP01", some "TEAMNAME-DEV"⟩] =
      Except.error PyError.nameError := rfl

/-- Claim C7, counterexample: records two and three share the hostname
"FOO" and both fall into the fallback branch, so both append "FOO" to the
character groups of the string "UNKNOWN".  The group "N" then holds six
copies of "FOO" — three per record, not the one per record the claim
states. -/
theorem c7_counterexample_unknown_chars :
    ∃ inv,
      generate_inventory
        [⟨"ds", "1", "BOX-DEV", some "TEAMNAME-DEV"⟩,
         ⟨"ds", "2", "FOO", some "TEAMNAME-PROD"⟩,
         ⟨"ds", "3", "FOO", some "TEAMNAME-PROD"⟩] = Except.ok inv ∧
      dictLookup inv "N" =
        some (InvEntry.grp ["FOO", "FOO", "FOO", "FOO", "FOO", "FOO"]) :=
  ⟨_, rfl, rfl⟩

/-! ## Association-list dictionary lemmas -/

theorem dictLookup_append_ne {α : Type} (d : List (String × α)) (k k' : String)
    (v : α) (h : k' ≠ k) : dictLookup (d ++ [(k, v)]) k' = dictLookup d k' := by
  induction d with
  | nil => simp [dictLookup, Ne.symm h]
  | cons p ps ih => by_cases hp : p.1 = k' <;> simp [dictLookup, hp, ih]

theorem dictLookup_append_self {α : Type} (d : List (String × α)) (k : String)
    (v : α) (h : dictLookup d k = none) :
    dictLookup (d ++ [(k, v)]) k = some v := by
  induction d with
  | nil => simp [dictLookup]
  | cons p ps ih =>
    by_cases hp : p.1 = k
    · simp [dictLookup, hp] at h
    · simp [dictLookup, hp] at h ⊢
      exact ih h

theorem dictLookup_mapset {α : Type} (d : List (String × α)) (k : String)
    (v : α) (h : dictHasKey d k = true) :
    dictLookup (d.map fun p => if p.1 = k then (k, v) else p) k = some v := by
  induction d with
  | nil => simp [dictHasKey, dictLookup] at h
  | cons p ps ih =>
    by_cases hp : p.1 = k
    · simp [dictLookup, hp]
    · have hps : dictHasKey ps k = true := by
        simpa [dictHasKey, dictLookup, hp] using h
      simp [dictLookup, hp, ih hps]

theorem dictLookup_mapset_ne {α : Type} (d : List (String × α)) (k k' : String)
    (v : α) (h : k' ≠ k) :
    dictLookup (d.map fun p => if p.1 = k then (k, v) else p) k' =
      dictLookup d k' := by
  induction d with
  | nil => simp [dictLookup]
  | cons p ps ih =>
    by_cases hp : p.1 = k
    · simp [dictLookup, hp, Ne.symm h, ih]
    · simp [dictLookup, hp, ih]

theorem dictLookup_set_self {α : Type} (d : List (String × α)) (k : String)
    (v : α) : dictLookup (dictSet d k v) k = some v := by
  unfold dictSet
  by_cases hk : dictHasKey d k
  · simpa [hk] using dictLookup_mapset d k v hk
  · have h0 : dictLookup d k = none := by
      cases ho : dictLookup d k with
      | none => rfl
      | some w => simp [dictHasKey, ho] at hk
    simp [hk, dictLookup_append_self d k v h0]

theorem dictLookup_set_ne {α : Type} (d : List (String × α)) (k k' : String)
    (v : α) (h : k' ≠ k) :
    dictLookup (dictSet d k v) k' = dictLookup d k' := by
  unfold dictSet
  by_cases hk : dictHasKey d k
  · simpa [hk] using dictLookup_mapset_ne d k k' v h
  · simp [hk, dictLookup_append_ne d k k' v h]

theorem dictLookup_none_not_mem {α : Type} (d : List (String × α)) (k : String)
    (h : dictLookup d k = none) : ∀ p ∈ d, p.1 ≠ k := by
  induction d with
  | nil => intro p hp; simp at hp
  | cons q qs ih =>
    intro p hp
    by_cases hq : q.1 = k
    · simp [dictLookup, hq] at h
    · rcases List.mem_cons.mp hp with hpq | hps
      · subst hpq; exact hq
      · exact ih (by simpa [dictLookup, hq] using h) p hps

/-! ## Effect of one group append (lines 193..196) -/

theorem addToGroup_groupHosts (inv : Inventory) (g hn : String)
    (inv' : Inventory) (hok : addToGroup inv g hn = Except.ok inv')
    (g' : String) :
    groupHosts inv' g' =
      groupHosts inv g' ++ (if g' = g then [hn] else []) := by
  unfold addToGroup at hok
  by_cases hk : dictHasKey inv g
  · simp only [hk, if_true] at hok
    cases hlook : dictLookup inv g with
    | none => simp [dictHasKey, hlook] at hk
    | some e =>
      cases e with
      | meta hv => simp [hlook] at hok
      | grp hs =>
        simp [hlook] at hok
        subst hok
        by_cases hg : g' = g
        · subst hg
          simp [groupHosts, dictLookup_set_self, hlook]
        · simp [groupHosts, dictLookup_set_ne inv g g' _ hg, hg]
  · simp only [hk, if_false, Bool.false_eq_true] at hok
    have h0 : dictLookup inv g = none := by
      cases ho : dictLookup inv g with
      | none => rfl
      | some w => simp [dictHasKey, ho] at hk
    have h1 : dictLookup (inv ++ [(g, InvEntry.grp [])]) g =
        some (InvEntry.grp []) := dictLookup_append_self inv g _ h0
    simp [h1] at hok
    subst hok
    by_cases hg : g' = g
    · subst hg
      simp [groupHosts, dictLookup_set_self, h0]
    · simp [groupHosts, dictLookup_set_ne _ g g' _ hg,
        dictLookup_append_ne inv g g' _ hg, hg]

theorem addToGroup_lookupHV (inv : Inventory) (g hn : String)
    (inv' : Inventory) (hok : addToGroup inv g hn = Except.ok inv')
    (n : String) : lookupHV inv' n = lookupHV inv n := by
  unfold addToGroup at hok
  by_cases hk : dictHasKey inv g
  · simp only [hk, if_true] at hok
    cases hlook : dictLookup inv g with
    | none => simp [dictHasKey, hlook] at hk
    | some e =>
      cases e with
      | meta hv => simp [hlook] at hok
      | grp hs =>
        simp [hlook] at hok
        subst hok
        by_cases hg : g = "_meta"
        · subst hg
          simp [lookupHV, dictLookup_set_self, hlook]
        · simp [lookupHV, dictLookup_set_ne inv g "_meta" _ (Ne.symm hg)]
  · simp only [hk, if_false, Bool.false_eq_true] at hok
    have h0 : dictLookup inv g = none := by
      cases ho : dictLookup inv g with
      | none => rfl
      | some w => simp [dictHasKey, ho] at hk
    have h1 : dictLookup (inv ++ [(g, InvEntry.grp [])]) g =
        some (InvEntry.grp []) := dictLookup_append_self inv g _ h0
    simp [h1] at hok
    subst hok
    by_cases hg : g = "_meta"
    · subst hg
      simp [lookupHV, dictLookup_set_self, h0]
    · simp [lookupHV, dictLookup_set_ne _ g "_meta" _ (Ne.symm hg),
        dictLookup_append_ne inv g "_meta" _ (Ne.symm hg)]

/-! ## Effect of the hostvars write (lines 199..204) -/

theorem setHostvars_lookupHV (inv : Inventory) (hn : String) (v : HostVars)
    (inv' : Inventory) (hok : setHostvars inv hn v = Except.ok inv')
    (n : String) :
    lookupHV inv' n = if n = hn then some v else lookupHV inv n := by
  unfold setHostvars at hok
  cases hm : dictLookup inv "_meta" with
  | none => simp [hm] at hok
  | some e =>
    cases e with
    | grp hs => simp [hm] at hok
    | meta hv =>
      simp [hm] at hok
      subst hok
      by_cases hnn : n = hn
      · simp [lookupHV, dictLookup_set_self, hnn]
      · simp [lookupHV, dictLookup_set_self, dictLookup_set_ne hv hn n v hnn,
          hnn, hm]

theorem setHostvars_groupHosts (inv : Inventory) (hn : String) (v : HostVars)
    (inv' : Inventory) (hok : setHostvars inv hn v = Except.ok inv')
    (g : String) : groupHosts inv' g = groupHosts inv g := by
  unfold setHostvars at hok
  cases hm : dictLookup inv "_meta" with
  | none => simp [hm] at hok
  | some e =>
    cases e with
    | grp hs => simp [hm] at hok
    | meta hv =>
      simp [hm] at hok
      subst hok
      by_cases hg : g = "_meta"
      · subst hg
        simp [groupHosts, dictLookup_set_self, hm]
      · simp [groupHosts, dictLookup_set_ne inv "_meta" g _ hg]

/-! ## Effect of the whole group loop of one iteration -/

theorem foldGroups_groupHosts (hn : String) :
    ∀ (gl : List String) (inv inv' : Inventory),
      gl.foldlM (fun i g => addToGroup i g hn) inv = Except.ok inv' →
      ∀ g', groupHosts inv' g' =
        groupHosts inv g' ++ List.replicate (gl.count g') hn := by
  intro gl
  induction gl with
  | nil =>
    intro inv inv' h g'
    simp only [List.foldlM_nil] at h
    cases h
    simp [List.count_nil]
  | cons g gs ih =>
    intro inv inv' h g'
    rw [List.foldlM_cons] at h
    cases ha : addToGroup inv g hn with
    | error e => simp [ha, Bind.bind, Except.bind] at h
    | ok inv1 =>
      rw [ha] at h
      simp only [Bind.bind, Except.bind] at h
      rw [ih inv1 inv' h g', addToGroup_groupHosts inv g hn inv1 ha g']
      by_cases hg : g' = g
      · simp [hg, List.count_cons, List.replicate_succ, List.append_assoc]
      · simp [hg, List.count_cons, Ne.symm hg]

theorem foldGroups_lookupHV (hn : String) :
    ∀ (gl : List String) (inv inv' : Inventory),
      gl.foldlM (fun i g => addToGroup i g hn) inv = Except.ok inv' →
      ∀ n, lookupHV inv' n = lookupHV inv n := by
  intro gl
  induction gl with
  | nil =>
    intro inv inv' h n
    simp only [List.foldlM_nil] at h
    cases h
    rfl
  | cons g gs ih =>
    intro inv inv' h n
    rw [List.foldlM_cons] at h
    cases ha : addToGroup inv g hn with
    | error e => simp [ha, Bind.bind, Except.bind] at h
    | ok inv1 =>
      rw [ha] at h
      simp only [Bind.bind, Except.bind] at h
      rw [ih inv1 inv' h n, addToGroup_lookupHV inv g hn inv1 ha n]

/-! ## Effect of one loop iteration (lines 146..204) -/

theorem processHost_ok_parts (st : LoopState) (host : HostRecord)
    (st' : LoopState) (hok : processHost st host = Except.ok st') :
    ∃ c inv1 e,
      classifyHost st.env_name host.app_region host.objectName =
          Except.ok c ∧
      (PyGroups.toIter c.groups).foldlM
          (fun inv g => addToGroup inv g host.objectName) st.inv =
          Except.ok inv1 ∧
      c.env_name = some e ∧
      setHostvars inv1 host.objectName
          { job_name := c.job_name
            env_name := e
            server_description := "Server in my org"
            connected_hosts := c.connected_hosts } = Except.ok st'.inv ∧
      st'.env_name = some e := by
  unfold processHost at hok
  cases hc : classifyHost st.env_name host.app_region host.objectName with
  | error e => simp [hc] at hok
  | ok c =>
    simp only [hc] at hok
    cases hf : (PyGroups.toIter c.groups).foldlM
        (fun inv g => addToGroup inv g host.objectName) st.inv with
    | error e => simp [hf] at hok
    | ok inv1 =>
      simp only [hf] at hok
      cases he : c.env_name with
      | none => simp [he] at hok
      | some e =>
        simp only [he] at hok
        cases hs : setHostvars inv1 host.objectName
            { job_name := c.job_name
              env_name := e
              server_description := "Server in my org"
              connected_hosts := c.connected_hosts } with
        | error err => simp [hs] at hok
        | ok inv2 =>
          simp only [hs, Except.ok.injEq] at hok
          subst hok
          exact ⟨c, inv1, e, rfl, hf, he, hs, rfl⟩

theorem processHost_untouched (st : LoopState) (host : HostRecord)
    (st' : LoopState) (hok : processHost st host = Except.ok st')
    (n : String) (hne : host.objectName ≠ n) :
    lookupHV st'.inv n = lookupHV st.inv n := by
  obtain ⟨c, inv1, e, hc, hf, he, hs, henv⟩ :=
    processHost_ok_parts st host st' hok
  rw [setHostvars_lookupHV inv1 host.objectName _ st'.inv hs n,
    if_neg (Ne.symm hne)]
  exact foldGroups_lookupHV host.objectName _ st.inv inv1 hf n

theorem processHost_groupAppend (st : LoopState) (host : HostRecord)
    (st' : LoopState) (hok : processHost st host = Except.ok st') :
    ∃ c, classifyHost st.env_name host.app_region host.objectName =
        Except.ok c ∧
      ∀ g, groupHosts st'.inv g =
        groupHosts st.inv g ++
          List.replicate ((PyGroups.toIter c.groups).count g)
            host.objectName := by
  obtain ⟨c, inv1, e, hc, hf, he, hs, henv⟩ :=
    processHost_ok_parts st host st' hok
  refine ⟨c, hc, fun g => ?_⟩
  rw [setHostvars_groupHosts inv1 host.objectName _ st'.inv hs g]
  exact foldGroups_groupHosts host.objectName _ st.inv inv1 hf g

/-! ## Effect of the host loop as a whole -/

theorem foldHosts_untouched (n : String) :
    ∀ (l : List HostRecord) (st st' : LoopState),
      (∀ h ∈ l, h.objectName ≠ n) →
      l.foldlM processHost st = Except.ok st' →
      lookupHV st'.inv n = lookupHV st.inv n := by
  intro l
  induction l with
  | nil =>
    intro st st' _ h
    simp only [List.foldlM_nil] at h
    cases h
    rfl
  | cons q qs ih =>
    intro st st' hnames h
    rw [List.foldlM_cons] at h
    cases hq : processHost st q with
    | error e => simp [hq, Bind.bind, Except.bind] at h
    | ok st1 =>
      rw [hq] at h
      simp only [Bind.bind, Except.bind] at h
      rw [ih st1 st' (fun p hp => hnames p (List.mem_cons_of_mem q hp)) h]
      exact processHost_untouched st q st1 hq n
        (hnames q (List.mem_cons_self q qs))

/-! ## Claims C4 and C5: precedence inside the managed branch -/

theorem roleGroups_web (hostname : String)
    (h : (pyIn "HTTP" hostname || pyIn "WEB" hostname) = true) :
    roleGroups hostname = ["WEB", "WEB_PATCHING"] := by
  unfold roleGroups
  simp [h]

theorem roleGroups_app (hostname : String)
    (h1 : (pyIn "HTTP" hostname || pyIn "WEB" hostname) = false)
    (h2 : (pyIn "APP" hostname || pyIn "TOMCAT" hostname) = true) :
    roleGroups hostname = ["APP", "TOMCAT_PATCHING"] := by
  unfold roleGroups
  simp [h1, h2]

theorem roleGroups_nil (hostname : String)
    (h1 : (pyIn "HTTP" hostname || pyIn "WEB" hostname) = false)
    (h2 : (pyIn "APP" hostname || pyIn "TOMCAT" hostname) = false) :
    roleGroups hostname = [] := by
  unfold roleGroups
  simp [h1, h2]

/-- Claim C4: environment precedence.  For a host whose managed-environment
predicate evaluates to true and whose hostname contains both "DEV" and
"TEST1", the classification takes the DEV branch only (line 162 is checked
before lines 170 and 178): `env_name` becomes the DEV label, "DEV" is in
the computed group list, and "TEST1", "TEST2" are not. -/
theorem c4_dev_precedence (env_prev app_region : Option String)
    (hostname : String)
    (hcond : managedCheck app_region hostname = Except.ok true)
    (hdev : pyIn "DEV" hostname = true)
    (_ht1 : pyIn "TEST1" hostname = true) :
    ∃ c, classifyHost env_prev app_region hostname = Except.ok c ∧
      c.env_name = some "DEV_ENVIRONMENT" ∧
      "DEV" ∈ PyGroups.toIter c.groups ∧
      "TEST1" ∉ PyGroups.toIter c.groups ∧
      "TEST2" ∉ PyGroups.toIter c.groups := by
  have hcl : classifyHost env_prev app_region hostname =
      Except.ok
        { groups := PyGroups.list (["DEV"] ++ roleGroups hostname)
          job_name := "generic-prometheus-job-name"
          connected_hosts := []
          env_name := some "DEV_ENVIRONMENT" } := by
    unfold classifyHost
    simp [hcond, hdev]
  refine ⟨_, hcl, rfl, ?_, ?_, ?_⟩
  · exact List.mem_cons_self _ _
  · show "TEST1" ∉ PyGroups.toIter (PyGroups.list (["DEV"] ++ roleGroups hostname))
    unfold roleGroups
    split
    · decide
    · split
      · decide
      · decide
  · show "TEST2" ∉ PyGroups.toIter (PyGroups.list (["DEV"] ++ roleGroups hostname))
    unfold roleGroups
    split
    · decide
    · split
      · decide
      · decide

/-- Claim C4, witness: the managed predicate holds (the hostname contains
"TEST"), the hostname contains both "DEV" and "TEST1", and the conclusion
is realized at this concrete host. -/
theorem c4_dev_precedence_witness :
    ∃ c, classifyHost none (some "TEAMNAME-X") "BOX-DEV-TEST1" =
        Except.ok c ∧
      c.env_name = some "DEV_ENVIRONMENT" ∧
      "DEV" ∈ PyGroups.toIter c.groups ∧
      "TEST1" ∉ PyGroups.toIter c.groups ∧
      "TEST2" ∉ PyGroups.toIter c.groups :=
  c4_dev_precedence none (some "TEAMNAME-X") "BOX-DEV-TEST1" rfl rfl rfl

/-- Claim C5: role precedence inside a matched environment branch.  When
the managed predicate holds and the hostname matched one of the three
environment tokens, the role block adds WEB and WEB_PATCHING when the
hostname contains "HTTP" or "WEB" (and then never the APP groups, even if
"APP" is also present), else APP and TOMCAT_PATCHING when it contains
"APP" or "TOMCAT", else nothing: the group list is the environment token
alone. -/
theorem c5_role_precedence (env_prev app_region : Option String)
    (hostname : String)
    (hcond : managedCheck app_region hostname = Except.ok true)
    (henv : (pyIn "DEV" hostname || pyIn "TEST1" hostname ||
      pyIn "TEST2" hostname) = true) :
    ∃ c, classifyHost env_prev app_region hostname = Except.ok c ∧
      ((pyIn "HTTP" hostname || pyIn "WEB" hostname) = true →
        "WEB" ∈ PyGroups.toIter c.groups ∧
        "WEB_PATCHING" ∈ PyGroups.toIter c.groups ∧
        "APP" ∉ PyGroups.toIter c.groups ∧
        "TOMCAT_PATCHING" ∉ PyGroups.toIter c.groups) ∧
      ((pyIn "HTTP" hostname || pyIn "WEB" hostname) = false →
        (pyIn "APP" hostname || pyIn "TOMCAT" hostname) = true →
        "APP" ∈ PyGroups.toIter c.groups ∧
        "TOMCAT_PATCHING" ∈ PyGroups.toIter c.groups ∧
        "WEB" ∉ PyGroups.toIter c.groups ∧
        "WEB_PATCHING" ∉ PyGroups.toIter c.groups) ∧
      ((pyIn "HTTP" hostname || pyIn "WEB" hostname) = false →
        (pyIn "APP" hostname || pyIn "TOMCAT" hostname) = false →
        ∃ e, PyGroups.toIter c.groups = [e] ∧
          (e = "DEV" ∨ e = "TEST1" ∨ e = "TEST2")) := by
  cases hdev : pyIn "DEV" hostname with
  | true =>
    have hcl : classifyHost env_prev app_region hostname =
        Except.ok
          { groups := PyGroups.list (["DEV"] ++ roleGroups hostname)
            job_name := "generic-prometheus-job-name"
            connected_hosts := []
            env_name := some "DEV_ENVIRONMENT" } := by
      unfold classifyHost
      simp [hcond, hdev]
    refine ⟨_, hcl, ?_, ?_, ?_⟩
    · intro hw
      rw [roleGroups_web hostname hw]
      decide
    · intro hw ha
      rw [roleGroups_app hostname hw ha]
      decide
    · intro hw ha
      rw [roleGroups_nil hostname hw ha]
      exact ⟨"DEV", rfl, Or.inl rfl⟩
  | false =>
    cases ht1 : pyIn "TEST1" hostname with
    | true =>
      have hcl : classifyHost env_prev app_region hostname =
          Except.ok
            { groups := PyGroups.list (["TEST1"] ++ roleGroups hostname)
              job_name := "generic-prometheus-job-name"
              connected_hosts := []
              env_name := some "TEST1_ENVIRONMENT" } := by
        unfold classifyHost
        simp [hcond, hdev, ht1]
      refine ⟨_, hcl, ?_, ?_, ?_⟩
      · intro hw
        rw [roleGroups_web hostname hw]
        decide
      · intro hw ha
        rw [roleGroups_app hostname hw ha]
        decide
      · intro hw ha
        rw [roleGroups_nil hostname hw ha]
        exact ⟨"TEST1", rfl, Or.inr (Or.inl rfl)⟩
    | false =>
      cases ht2 : pyIn "TEST2" hostname with
      | true =>
        have hcl : classifyHost env_prev app_region hostname =
            Except.ok
              { groups := PyGroups.list (["TEST2"] ++ roleGroups hostname)
                job_name := "generic-prometheus-job-name"
                connected_hosts := []
                env_name := some "TEST2_ENVIRONMENT" } := by
          unfold classifyHost
          simp [hcond, hdev, ht1, ht2]
        refine ⟨_, hcl, ?_, ?_, ?_⟩
        · intro hw
          rw [roleGroups_web hostname hw]
          decide
        · intro hw ha
          rw [roleGroups_app hostname hw ha]
          decide
        · intro hw ha
          rw [roleGroups_nil hostname hw ha]
          exact ⟨"TEST2", rfl, Or.inr (Or.inr rfl)⟩
      | false =>
        simp [hdev, ht1, ht2] at henv

/-- Claim C5, witness: a hostname containing "DEV", "HTTP" and "APP"
inside a managed region takes the WEB branch only. -/
theorem c5_role_precedence_witness :
    ∃ c, classifyHost none (some "TEAMNAME-DEV") "X-DEV-HTTP-APP" =
        Except.ok c ∧
      "WEB" ∈ PyGroups.toIter c.groups ∧
      "WEB_PATCHING" ∈ PyGroups.toIter c.groups ∧
      "APP" ∉ PyGroups.toIter c.groups ∧
      "TOMCAT_PATCHING" ∉ PyGroups.toIter c.groups := by
  obtain ⟨c, hc, hweb, _, _⟩ :=
    c5_role_precedence none (some "TEAMNAME-DEV") "X-DEV-HTTP-APP" rfl rfl
  exact ⟨c, hc, hweb rfl⟩

/-! ## Claim C10: managed host with no environment token in the hostname -/

/-- Claim C10 (amended): a host whose region makes the managed predicate
true but whose hostname contains none of "DEV", "TEST1", "TEST2" keeps
`groups = []` (line 155) and never assigns `env_name`.  Provided some
earlier iteration left `env_name` bound, the iteration succeeds, adds the
host to no group at all, and still writes a hostvars entry carrying the
prometheus job label and the stale `env_name` of that earlier host; all
other hostvars entries are untouched.  (When no earlier iteration bound
`env_name` the write instead raises `NameError`, see the
counterexample.) -/
theorem c10_managed_no_match (st : LoopState) (host : HostRecord)
    (e : String) (henv : st.env_name = some e)
    (hmeta : ∃ hv, dictLookup st.inv "_meta" = some (InvEntry.meta hv))
    (hcond : managedCheck host.app_region host.objectName = Except.ok true)
    (hdev : pyIn "DEV" host.objectName = false)
    (ht1 : pyIn "TEST1" host.objectName = false)
    (ht2 : pyIn "TEST2" host.objectName = false) :
    ∃ st', processHost st host = Except.ok st' ∧
      st'.env_name = some e ∧
      (∀ g, groupHosts st'.inv g = groupHosts st.inv g) ∧
      lookupHV st'.inv host.objectName =
        some { job_name := "generic-prometheus-job-name"
               env_name := e
               server_description := "Server in my org"
               connected_hosts := [] } ∧
      ∀ n, n ≠ host.objectName → lookupHV st'.inv n = lookupHV st.inv n := by
  obtain ⟨hv, hm⟩ := hmeta
  have hcl : classifyHost st.env_name host.app_region host.objectName =
      Except.ok
        { groups := PyGroups.list []
          job_name := "generic-prometheus-job-name"
          connected_hosts := []
          env_name := some e } := by
    unfold classifyHost
    simp [hcond, hdev, ht1, ht2, henv]
  have hsv : setHostvars st.inv host.objectName
      { job_name := "generic-prometheus-job-name"
        env_name := e
        server_description := "Server in my org"
        connected_hosts := [] } =
      Except.ok (dictSet st.inv "_meta"
        (InvEntry.meta (dictSet hv host.objectName
          { job_name := "generic-prometheus-job-name"
            env_name := e
            server_description := "Server in my org"
            connected_hosts := [] }))) := by
    unfold setHostvars
    simp [hm]
  have hph : processHost st host =
      Except.ok
        { inv := dictSet st.inv "_meta"
            (InvEntry.meta (dictSet hv host.objectName
              { job_name := "generic-prometheus-job-name"
                env_name := e
                server_description := "Server in my org"
                connected_hosts := [] }))
          env_name := some e } := by
    unfold processHost
    simp [hcl, PyGroups.toIter, List.foldlM_nil, pure, Except.pure, hsv]
  refine ⟨_, hph, rfl, ?_, ?_, ?_⟩
  · intro g
    exact setHostvars_groupHosts st.inv host.objectName _ _ hsv g
  · rw [setHostvars_lookupHV st.inv host.objectName _ _ hsv host.objectName,
      if_pos rfl]
  · intro n hn
    rw [setHostvars_lookupHV st.inv host.objectName _ _ hsv n, if_neg hn]

/-- Claim C10, witness: a concrete state in which an earlier host left
`env_name = "DEV_ENVIRONMENT"`, and a managed host "APP01" matching no
environment token. -/
theorem c10_managed_no_match_witness :
    ∃ st',
      processHost
          { inv := [("_meta", InvEntry.meta [])]
            env_name := some "DEV_ENVIRONMENT" }
          ⟨"ds", "1", "APP01", some "TEAMNAME-DEV"⟩ = Except.ok st' ∧
      st'.env_name = some "DEV_ENVIRONMENT" ∧
      (∀ g, groupHosts st'.inv g =
        groupHosts [("_meta", InvEntry.meta [])] g) ∧
      lookupHV st'.inv "APP01" =
        some { job_name := "generic-prometheus-job-name"
               env_name := "DEV_ENVIRONMENT"
               server_description := "Server in my org"
               connected_hosts := [] } ∧
      ∀ n, n ≠ "APP01" →
        lookupHV st'.inv n = lookupHV [("_meta", InvEntry.meta [])] n :=
  c10_managed_no_match
    { inv := [("_meta", InvEntry.meta [])], env_name := some "DEV_ENVIRONMENT" }
    ⟨"ds", "1", "APP01", some "TEAMNAME-DEV"⟩ "DEV_ENVIRONMENT"
    rfl ⟨[], rfl⟩ rfl rfl rfl rfl

/-! ## Claim C9: malformed tag payloads in the fetch loop -/

/-- Claim C9 (amended): a row whose tags payload is a truthy string on
which `json.loads` raises, or truthy and neither a string nor a dict, is
skipped entirely by the row loop: removing it from the row sequence does
not change the produced host records.  (Falsy payloads — `None`, the
empty string, empty collections — are replaced by an empty dict at
line 85 and the row is kept with a null region: see the
counterexample.) -/
theorem c9_truthy_malformed_skipped (pre post : List Row) (r : Row)
    (hbad : (∃ s, r.tags = PyTags.pyStr s none ∧ s ≠ "") ∨
      r.tags = PyTags.pyOther true) :
    processRows (pre ++ r :: post) = processRows (pre ++ post) := by
  have hskip : tagsArrayOf r.tags = Except.ok none := by
    rcases hbad with ⟨s, hts, hs⟩ | hts
    · rw [hts]
      unfold tagsArrayOf
      simp [pyTruthy, hs]
    · rw [hts]
      rfl
  induction pre with
  | nil =>
    show processRows (r :: post) = processRows post
    simp only [processRows, hskip]
  | cons q qs ih =>
    show processRows (q :: (qs ++ r :: post)) = processRows (q :: (qs ++ post))
    simp only [processRows]
    rw [ih]

/-- Claim C9, witness: a truthy unparseable string payload makes the row
disappear from the output. -/
theorem c9_truthy_malformed_skipped_witness :
    processRows [⟨"ds", "2", "HOST2", PyTags.pyStr "not json" none⟩] =
      processRows [] :=
  c9_truthy_malformed_skipped [] []
    ⟨"ds", "2", "HOST2", PyTags.pyStr "not json" none⟩
    (Or.inl ⟨"not json", rfl, by decide⟩)

/-! ## Claim C7: duplicate hostnames -/

/-- Claim C7 (amended): in any successful run, (1) the final hostvars
entry of a hostname equals the entry present right after the last record
with that name was processed — later records with other names never touch
it, so the last record with the name wins; (2) each processed record
appends its hostname to a group once per occurrence of the group in its
computed group list.  For managed-branch records the list has each group
once; for fallback records the list is the character sequence of
"UNKNOWN", in which "N" occurs three times — hence not once per record,
see the counterexample. -/
theorem c7_last_write_wins_and_appends :
    (∀ (l1 : List HostRecord) (h : HostRecord) (l2 : List HostRecord)
        (st' : LoopState),
        (∀ h2 ∈ l2, h2.objectName ≠ h.objectName) →
        (l1 ++ h :: l2).foldlM processHost initState = Except.ok st' →
        ∃ stm, (l1 ++ [h]).foldlM processHost initState = Except.ok stm ∧
          lookupHV st'.inv h.objectName = lookupHV stm.inv h.objectName) ∧
    (∀ (st : LoopState) (host : HostRecord) (st' : LoopState),
        processHost st host = Except.ok st' →
        ∃ c, classifyHost st.env_name host.app_region host.objectName =
            Except.ok c ∧
          ∀ g, groupHosts st'.inv g =
            groupHosts st.inv g ++
              List.replicate ((PyGroups.toIter c.groups).count g)
                host.objectName) := by
  constructor
  · intro l1 h l2 st' hnames hfold
    rw [List.append_cons, List.foldlM_append] at hfold
    cases hm : (l1 ++ [h]).foldlM processHost initState with
    | error e =>
      rw [hm] at hfold
      simp [Bind.bind, Except.bind] at hfold
    | ok stm =>
      rw [hm] at hfold
      simp only [Bind.bind, Except.bind] at hfold
      exact ⟨stm, rfl,
        foldHosts_untouched h.objectName l2 stm st' hnames hfold⟩
  · exact processHost_groupAppend

/-- The two records of the C7 witness: both named "X-DEV". -/
def c7HostA : HostRecord :=
  { name := "ds", objectId := "1", objectName := "X-DEV",
    app_region := some "TEAMNAME-DEV" }

/-- The later duplicate record of the C7 witness. -/
def c7HostB : HostRecord :=
  { name := "ds", objectId := "2", objectName := "X-DEV",
    app_region := some "TEAMNAME-TEST1" }

/-- Claim C7, witness: two records share the hostname "X-DEV"; the run
succeeds and the final hostvars entry of "X-DEV" is the one in place
after the second record was processed. -/
theorem c7_last_write_wins_witness :
    ∃ st',
      ([c7HostA] ++ c7HostB :: []).foldlM processHost initState =
          Except.ok st' ∧
      ∃ stm,
        ([c7HostA] ++ [c7HostB]).foldlM processHost initState =
            Except.ok stm ∧
        lookupHV st'.inv c7HostB.objectName =
          lookupHV stm.inv c7HostB.objectName := by
  obtain ⟨st', hst⟩ :
      ∃ s, ([c7HostA] ++ c7HostB :: []).foldlM processHost initState =
        Except.ok s := ⟨_, rfl⟩
  exact ⟨st', hst,
    c7_last_write_wins_and_appends.1 [c7HostA] c7HostB [] st'
      (by intro h2 hm2; exact absurd hm2 (List.not_mem_nil h2)) hst⟩

/-! ## Claim C8: shape of the final document -/

/-- Shape invariant of the inventory under construction: the `"_meta"` key
holds the hostvars record, and every other key holds a non-empty group. -/
def InvWF (inv : Inventory) : Prop :=
  (∃ hv, dictLookup inv "_meta" = some (InvEntry.meta hv)) ∧
  ∀ p ∈ inv, p.1 ≠ "_meta" → ∃ hs, p.2 = InvEntry.grp hs ∧ hs ≠ []

theorem addToGroup_wf (inv : Inventory) (g hn : String) (inv' : Inventory)
    (hok : addToGroup inv g hn = Except.ok inv') (hwf : InvWF inv) :
    InvWF inv' := by
  obtain ⟨⟨hv, hm⟩, hgr⟩ := hwf
  have hgm : g ≠ "_meta" := by
    intro hgeq
    subst hgeq
    have hk : dictHasKey inv "_meta" = true := by simp [dictHasKey, hm]
    unfold addToGroup at hok
    simp [hk, hm] at hok
  unfold addToGroup at hok
  by_cases hk : dictHasKey inv g
  · simp only [hk, if_true] at hok
    cases hlook : dictLookup inv g with
    | none => simp [dictHasKey, hlook] at hk
    | some e =>
      cases e with
      | meta hv2 => simp [hlook] at hok
      | grp hs =>
        simp [hlook] at hok
        subst hok
        constructor
        · refine ⟨hv, ?_⟩
          rw [dictLookup_set_ne inv g "_meta" _ (Ne.symm hgm)]
          exact hm
        · intro p hp hpne
          unfold dictSet at hp
          simp only [hk, if_true, List.mem_map] at hp
          obtain ⟨q, hq, hqe⟩ := hp
          by_cases hq1 : q.1 = g
          · rw [if_pos hq1] at hqe
            refine ⟨hs ++ [hn], ?_, by simp⟩
            rw [← hqe]
          · rw [if_neg hq1] at hqe
            subst hqe
            exact hgr q hq hpne
  · simp only [hk, if_false, Bool.false_eq_true] at hok
    have h0 : dictLookup inv g = none := by
      cases ho : dictLookup inv g with
      | none => rfl
      | some w => simp [dictHasKey, ho] at hk
    have h1 : dictLookup (inv ++ [(g, InvEntry.grp [])]) g =
        some (InvEntry.grp []) := dictLookup_append_self inv g _ h0
    simp [h1] at hok
    subst hok
    constructor
    · refine ⟨hv, ?_⟩
      rw [dictLookup_set_ne _ g "_meta" _ (Ne.symm hgm),
        dictLookup_append_ne inv g "_meta" _ (Ne.symm hgm)]
      exact hm
    · intro p hp hpne
      unfold dictSet at hp
      have hk1 : dictHasKey (inv ++ [(g, InvEntry.grp [])]) g = true := by
        simp [dictHasKey, h1]
      simp only [hk1, if_true, List.mem_map] at hp
      obtain ⟨q, hq, hqe⟩ := hp
      rcases List.mem_append.mp hq with hqi | hqs
      · have hq1 : q.1 ≠ g := dictLookup_none_not_mem inv g h0 q hqi
        rw [if_neg hq1] at hqe
        subst hqe
        exact hgr q hqi hpne
      · have hq1 : q = (g, InvEntry.grp []) := by simpa using hqs
        subst hq1
        rw [if_pos rfl] at hqe
        refine ⟨[hn], ?_, by simp⟩
        rw [← hqe]

theorem setHostvars_wf (inv : Inventory) (hn : String) (v : HostVars)
    (inv' : Inventory) (hok : setHostvars inv hn v = Except.ok inv')
    (hwf : InvWF inv) : InvWF inv' := by
  obtain ⟨⟨hv, hm⟩, hgr⟩ := hwf
  unfold setHostvars at hok
  simp [hm] at hok
  subst hok
  constructor
  · exact ⟨dictSet hv hn v, dictLookup_set_self inv "_meta" _⟩
  · intro p hp hpne
    unfold dictSet at hp
    have hk : dictHasKey inv "_meta" = true := by simp [dictHasKey, hm]
    simp only [hk, if_true, List.mem_map] at hp
    obtain ⟨q, hq, hqe⟩ := hp
    by_cases hq1 : q.1 = "_meta"
    · rw [if_pos hq1] at hqe
      rw [← hqe] at hpne
      simp at hpne
    · rw [if_neg hq1] at hqe
      subst hqe
      exact hgr q hq hq1

theorem foldGroups_wf (hn : String) :
    ∀ (gl : List String) (inv inv' : Inventory),
      gl.foldlM (fun i g => addToGroup i g hn) inv = Except.ok inv' →
      InvWF inv → InvWF inv' := by
  intro gl
  induction gl with
  | nil =>
    intro inv inv' h hwf
    simp only [List.foldlM_nil] at h
    cases h
    exact hwf
  | cons g gs ih =>
    intro inv inv' h hwf
    rw [List.foldlM_cons] at h
    cases ha : addToGroup inv g hn with
    | error e => simp [ha, Bind.bind, Except.bind] at h
    | ok inv1 =>
      rw [ha] at h
      simp only [Bind.bind, Except.bind] at h
      exact ih inv1 inv' h (addToGroup_wf inv g hn inv1 ha hwf)

theorem processHost_wf (st : LoopState) (host : HostRecord)
    (st' : LoopState) (hok : processHost st host = Except.ok st')
    (hwf : InvWF st.inv) : InvWF st'.inv := by
  obtain ⟨c, inv1, e, hc, hf, he, hs, henv⟩ :=
    processHost_ok_parts st host st' hok
  exact setHostvars_wf inv1 host.objectName _ st'.inv hs
    (foldGroups_wf host.objectName _ st.inv inv1 hf hwf)

theorem foldHosts_wf :
    ∀ (l : List HostRecord) (st st' : LoopState),
      l.foldlM processHost st = Except.ok st' → InvWF st.inv →
      InvWF st'.inv := by
  intro l
  induction l with
  | nil =>
    intro st st' h hwf
    simp only [List.foldlM_nil] at h
    cases h
    exact hwf
  | cons q qs ih =>
    intro st st' h hwf
    rw [List.foldlM_cons] at h
    cases hq : processHost st q with
    | error e => simp [hq, Bind.bind, Except.bind] at h
    | ok st1 =>
      rw [hq] at h
      simp only [Bind.bind, Except.bind] at h
      exact ih st1 st' h (processHost_wf st q st1 hq hwf)

theorem initInventory_wf : InvWF initInventory := by
  constructor
  · exact ⟨[], rfl⟩
  · intro p hp hpne
    have : p = ("_meta", InvEntry.meta []) := by simpa [initInventory] using hp
    subst this
    simp at hpne

/-- Claim C8: output-shape invariant.  Every successful run produces a
document whose `"_meta"` key holds the hostvars record and whose other
top-level keys all hold non-empty group host lists (groups are created
only when a host is being appended, lines 193..196); the empty host
sequence — e.g. after a connection failure — yields exactly the document
containing the empty hostvars block and nothing else (line 143). -/
theorem c8_output_shape :
    (∀ (hosts : List HostRecord) (inv : Inventory),
        generate_inventory hosts = Except.ok inv →
        (∃ hv, dictLookup inv "_meta" = some (InvEntry.meta hv)) ∧
        ∀ p ∈ inv, p.1 ≠ "_meta" →
          ∃ hs, p.2 = InvEntry.grp hs ∧ hs ≠ []) ∧
    generate_inventory [] = Except.ok [("_meta", InvEntry.meta [])] := by
  constructor
  · intro hosts inv hok
    unfold generate_inventory at hok
    cases hfold : hosts.foldlM processHost initState with
    | error e => simp [hfold, Except.map] at hok
    | ok st' =>
      rw [hfold] at hok
      simp only [Except.map, Except.ok.injEq] at hok
      subst hok
      exact foldHosts_wf hosts initState st' hfold initInventory_wf
  · rfl

/-- Claim C8, witness: a concrete successful run instantiating the shape
invariant. -/
theorem c8_output_shape_witness :
    ∃ inv,
      generate_inventory [⟨"ds", "1", "W-DEV", some "TEAMNAME-DEV"⟩] =
          Except.ok inv ∧
      (∃ hv, dictLookup inv "_meta" = some (InvEntry.meta hv)) ∧
      ∀ p ∈ inv, p.1 ≠ "_meta" →
        ∃ hs, p.2 = InvEntry.grp hs ∧ hs ≠ [] := by
  obtain ⟨inv, hinv⟩ :
      ∃ i, generate_inventory [⟨"ds", "1", "W-DEV", some "TEAMNAME-DEV"⟩] =
        Except.ok i := ⟨_, rfl⟩
  exact ⟨inv, hinv, c8_output_shape.1 _ inv hinv⟩
